import Mathlib

/-
  Verification development for scripts/calculate_savings.py.

  The script is embedded shallowly: parsed JSON values become an inductive
  type, Python dict operations become association-list operations with
  Python's key-equality semantics, and operations that would raise an
  uncaught exception in Python are modelled with Except.
-/

namespace ArcSavings

/-- JSON values as produced by parsing a source data file with json.load. -/
inductive JVal where
  | null
  | bool (b : Bool)
  | num (q : ℚ)
  | str (s : String)
  | arr (elems : List JVal)
  | obj (fields : List (String × JVal))

/-- Hashable Python key values up to Python equality (True equals 1, etc.). -/
inductive PyKey where
  | kStr (s : String)
  | kNum (q : ℚ)
  | kNull
deriving DecidableEq

/-- Canonical key of a value; none when the value is unhashable (list/dict). -/
def canonKey : JVal → Option PyKey
  | .str s => some (.kStr s)
  | .num q => some (.kNum q)
  | .bool b => some (.kNum (if b then 1 else 0))
  | .null => some .kNull
  | _ => none

/-- Python equality between dictionary keys. -/
def keyMatches (a b : JVal) : Bool :=
  match canonKey a, canonKey b with
  | some x, some y => decide (x = y)
  | _, _ => false

/-- The in-memory catalog items_map: a Python dict keyed by arbitrary values. -/
abbrev Catalog := List (JVal × JVal)

/-- Lookup in a Python dict modelled as an association list. -/
def dictGet : Catalog → JVal → Option JVal
  | [], _ => none
  | p :: rest, k => if keyMatches p.1 k then some p.2 else dictGet rest k

/-- Python dict assignment: update the value of a matching key in place,
keeping the first-seen key object and position, else append a new pair. -/
def dictSet : Catalog → JVal → JVal → Catalog
  | [], k, v => [(k, v)]
  | p :: rest, k, v =>
    if keyMatches p.1 k then (p.1, v) :: rest else p :: dictSet rest k v

/-- Field lookup on a JSON object field list (parsed dicts have unique keys). -/
def objGet : List (String × JVal) → String → Option JVal
  | [], _ => none
  | p :: rest, k => if p.1 = k then some p.2 else objGet rest k

/-- Field assignment on a JSON object: overwrite in place, else append. -/
def objSet : List (String × JVal) → String → JVal → List (String × JVal)
  | [], k, v => [(k, v)]
  | p :: rest, k, v =>
    if p.1 = k then (p.1, v) :: rest else p :: objSet rest k v

/-- Substring occurrence test on lists of characters. -/
def hasSubAux (pat : List Char) : List Char → Bool
  | [] => pat.isEmpty
  | c :: t => ((c :: t).take pat.length == pat) || hasSubAux pat t

/-- Python substring containment: pat occurs somewhere in s. -/
def strContainsSub (s pat : String) : Bool :=
  hasSubAux pat.toList s.toList

/-- Python membership test key in v; an error models the TypeError raised
when v is a number, a boolean or null. -/
def pyIn (key : String) (v : JVal) : Except Unit Bool :=
  match v with
  | .obj fs => .ok (objGet fs key).isSome
  | .str s => .ok (strContainsSub s key)
  | .arr es => .ok (es.any (fun e =>
      match e with
      | .str t => t == key
      | _ => false))
  | _ => .error ()

/-- Python subscription v[key] with a string key; an error models the
TypeError on non-dict values and the KeyError on a missing key. -/
def pyIndex (v : JVal) (key : String) : Except Unit JVal :=
  match v with
  | .obj fs =>
    match objGet fs key with
    | some x => .ok x
    | none => .error ()
  | _ => .error ()

/-- Python truthiness of a parsed JSON value, as tested by line 34. -/
def truthy : JVal → Bool
  | .null => false
  | .bool b => b
  | .num q => decide (q ≠ 0)
  | .str s => decide (s ≠ "")
  | .arr es => !es.isEmpty
  | .obj fs => !fs.isEmpty

/-- Numeric view of a value; Python booleans are numbers (True is 1). -/
def asNum : JVal → Option ℚ
  | .num q => some q
  | .bool b => some (if b then 1 else 0)
  | _ => none

/-- Lines 47-50 and 56-58: the stack size after its default has been applied;
the comparison with 0 raises a TypeError on a non-numeric value, and a value
less than or equal to 0 is replaced by 1. -/
def effStackPy (v : JVal) : Except Unit ℚ :=
  match asNum v with
  | none => .error ()
  | some q => .ok (if q ≤ 0 then 1 else q)

/-- Lines 39-52: the loop accumulating ingredient_space. Returning ok none
models the early return None on a missing ingredient; an error models an
uncaught TypeError or AttributeError from malformed field values. -/
def ingLoop (m : Catalog) : List (String × JVal) → ℚ → Except Unit (Option ℚ)
  | [], acc => .ok (some acc)
  | (iid, qty) :: rest, acc =>
    match dictGet m (.str iid) with
    | none => .ok none
    | some ing =>
      match ing with
      | .obj gs =>
        match effStackPy ((objGet gs "stackSize").getD (.num 1)) with
        | .error e => .error e
        | .ok ss =>
          match asNum qty with
          | none => .error ()
          | some q => ingLoop m rest (acc + q / ss)
      | _ => .error ()

/-- Lines 29-63: calculate_savings(item, items_map). Returns ok none for the
Python return None, ok (some s) for a numeric result, and an error when the
Python code would raise an uncaught exception. -/
def calculate_savings (item : JVal) (m : Catalog) : Except Unit (Option ℚ) :=
  match pyIn "recipe" item with
  | .error e => .error e
  | .ok false => .ok none
  | .ok true =>
    match pyIndex item "recipe" with
    | .error e => .error e
    | .ok recipe =>
      if truthy recipe = false then .ok none
      else
        match recipe with
        | .obj rpairs =>
          match ingLoop m rpairs 0 with
          | .error e => .error e
          | .ok none => .ok none
          | .ok (some ingSpace) =>
            match item with
            | .obj fs =>
              match effStackPy ((objGet fs "stackSize").getD (.num 1)) with
              | .error e => .error e
              | .ok tss =>
                match asNum ((objGet fs "craftQuantity").getD (.num 1)) with
                | none => .error ()
                | some cqn => .ok (some (ingSpace - cqn / tss))
            | _ => .error ()
        | _ => .error ()

/-- One file of the source directory: its basename and, when the file parses
as JSON, its parsed content (none models a file json.load rejects). -/
structure FileEntry where
  name : String
  content : Option JVal

/-- The literal suffix of the glob pattern for data files. -/
def jsonSuffix : List Char := ['.', 'j', 's', 'o', 'n']

/-- Whether a basename is matched by the glob pattern for json files: the
suffix is literal, and glob hides names starting with a dot from the star. -/
def matchesJson (name : String) : Bool :=
  !(name.toList.take 1 == ['.']) && (name.toList.reverse.take 5 == jsonSuffix.reverse)

/-- Lines 16 and 86: the files both scans consider, in directory order. -/
def globJson (files : List FileEntry) : List FileEntry :=
  files.filter (fun fe => matchesJson fe.name)

/-- Lines 21-24 plus the dict assignment of line 22: the id key extracted
from a parsed record; ok none models the no-id warning branch, an error a
TypeError from a non-dict record or an unhashable id value. -/
def extractId (data : JVal) : Except Unit (Option JVal) :=
  match pyIn "id" data with
  | .error e => .error e
  | .ok false => .ok none
  | .ok true =>
    match pyIndex data "id" with
    | .error e => .error e
    | .ok k => if (canonKey k).isSome then .ok (some k) else .error ()

/-- Lines 17-26: the loader loop over the globbed files. -/
def loadLoop : List FileEntry → Catalog → Except Unit Catalog
  | [], acc => .ok acc
  | fe :: rest, acc =>
    match fe.content with
    | none => loadLoop rest acc
    | some data =>
      match extractId data with
      | .error e => .error e
      | .ok none => loadLoop rest acc
      | .ok (some k) => loadLoop rest (dictSet acc k data)

/-- Lines 10-27: load_items(source_dir); none for the source directory
models a missing directory, which yields an empty mapping. -/
def load_items (src : Option (List FileEntry)) : Except Unit Catalog :=
  match src with
  | none => .ok []
  | some files => loadLoop (globJson files) []

/-- Lines 97-101: the per-file body of the publisher loop, producing the
record to serialize and whether a savings value was set on it. -/
def processFile (m : Catalog) (data : JVal) : Except Unit (JVal × Bool) :=
  match pyIn "id" data with
  | .error e => .error e
  | .ok false => .ok (data, false)
  | .ok true =>
    match calculate_savings data m with
    | .error e => .error e
    | .ok none => .ok (data, false)
    | .ok (some s) =>
      match data with
      | .obj fs => .ok (.obj (objSet fs "stashSavings" (.num s)), true)
      | _ => .error ()

/-- The publisher loop state: files written so far, whether an uncaught
exception ended the run, and the two counters of lines 83-84. -/
structure ProcAcc where
  dest : List (String × JVal)
  crashed : Bool
  processed : Nat
  calculated : Nat

/-- Lines 87-108: the publisher loop; an unparseable file is skipped, an
uncaught exception stops the loop with the files written so far kept. -/
def processLoop (m : Catalog) : List FileEntry → ProcAcc → ProcAcc
  | [], acc => acc
  | fe :: rest, acc =>
    match fe.content with
    | none => processLoop m rest acc
    | some data =>
      match processFile m data with
      | .error _ => ⟨acc.dest, true, acc.processed, acc.calculated⟩
      | .ok (d, c) =>
        processLoop m rest
          ⟨acc.dest ++ [(fe.name, d)], acc.crashed, acc.processed + 1,
           acc.calculated + (if c then 1 else 0)⟩

/-- Observable events of a run, in the order the script performs them. -/
inductive Event where
  | clearDest
  | makeDest
  | checkSource
  | noItems
  | crash
  | writeFile (name : String)
deriving DecidableEq

/-- Everything observable about one run: the event trace, the files of the
destination directory afterwards, whether the process died on an uncaught
exception, and the two printed counters. -/
structure RunResult where
  trace : List Event
  dest : List (String × JVal)
  crashed : Bool
  processed : Nat
  calculated : Nat

/-- Lines 66-70 followed by the source-existence test of line 12: the
destination reset events, then the check of the source directory. -/
def preamble (dExists : Bool) : List Event :=
  (if dExists then [Event.clearDest] else []) ++ [Event.makeDest, Event.checkSource]

/-- Lines 65-111: main(). dExists says whether the destination directory
already exists; src is the source directory, none when it is missing. -/
def main (dExists : Bool) (src : Option (List FileEntry)) : RunResult :=
  match load_items src with
  | .error _ => ⟨preamble dExists ++ [Event.crash], [], true, 0, 0⟩
  | .ok m =>
    if m.isEmpty then ⟨preamble dExists ++ [Event.noItems], [], false, 0, 0⟩
    else
      let acc := processLoop m (globJson (src.getD [])) ⟨[], false, 0, 0⟩
      ⟨preamble dExists ++ acc.dest.map (fun p => Event.writeFile p.1)
        ++ (if acc.crashed then [Event.crash] else []),
       acc.dest, acc.crashed, acc.processed, acc.calculated⟩

/-- Field lookup on an arbitrary value, for stating field preservation. -/
def jLookup : JVal → String → Option JVal
  | .obj fs, k => objGet fs k
  | _, _ => none

/-- Replace a degenerate stackSize field value (a number at most 0) by 1 on
an object field list; any other record is left untouched. -/
def clampFields (gs : List (String × JVal)) : List (String × JVal) :=
  match objGet gs "stackSize" with
  | some (.num q) => if q ≤ 0 then objSet gs "stackSize" (.num 1) else gs
  | _ => gs

/-- Replace a degenerate stackSize by 1 on a record value. -/
def clampStack : JVal → JVal
  | .obj gs => .obj (clampFields gs)
  | v => v

/-
  Specification-side definitions, following the words of the spec for the
  savings formula (section 4.2), to be compared against calculate_savings.
-/

/-- Written from the spec: the effective stack size of a record, its
stackSize field defaulting to 1 when absent and clamped to 1 when at most 0. -/
def specStackSize (gs : List (String × JVal)) : ℚ :=
  match objGet gs "stackSize" with
  | some v =>
    match asNum v with
    | some q => if q ≤ 0 then 1 else q
    | none => 1
  | none => 1

/-- Written from the spec: the effective stack size of an ingredient looked
up in the catalog. -/
def specIngStack (m : Catalog) (iid : String) : ℚ :=
  match dictGet m (.str iid) with
  | some (.obj gs) => specStackSize gs
  | _ => 1

/-- Written from the spec: the sum over each recipe pair of the quantity
divided by the effective stack size of the ingredient. -/
def specIngredientSpace (m : Catalog) (rpairs : List (String × JVal)) : ℚ :=
  (rpairs.map (fun p => (asNum p.2).getD 0 / specIngStack m p.1)).sum

/-- Written from the spec: craftQuantity, default 1 when absent, divided by
the item's own effective stack size. -/
def specTargetSpace (fs : List (String × JVal)) : ℚ :=
  (asNum ((objGet fs "craftQuantity").getD (.num 1))).getD 1 / specStackSize fs

/-- The valid (id, record) pairs of a file list in scan order: parsed files
whose record carries a hashable id. -/
def specValidEntries (files : List FileEntry) : List (JVal × JVal) :=
  files.filterMap (fun fe =>
    match fe.content with
    | none => none
    | some d =>
      match extractId d with
      | .ok (some k) => some (k, d)
      | _ => none)

/-- The catalog built by inserting a list of (id, record) pairs in order. -/
def buildCat (l : List (JVal × JVal)) (acc : Catalog) : Catalog :=
  l.foldl (fun a p => dictSet a p.1 p.2) acc

/-
  Basic lemmas about keys, object field lists and Python dicts.
-/

theorem keyMatches_symm (a b : JVal) : keyMatches a b = keyMatches b a := by
  unfold keyMatches
  cases canonKey a <;> cases canonKey b <;> simp [eq_comm]

theorem canon_of_keyMatches {a b : JVal} (h : keyMatches a b = true) :
    canonKey a = canonKey b ∧ (canonKey a).isSome = true := by
  unfold keyMatches at h
  cases ha : canonKey a <;> cases hb : canonKey b <;> simp [ha, hb] at h ⊢
  exact h

theorem keyMatches_of_canon {a b : JVal} {x : PyKey}
    (ha : canonKey a = some x) (hb : canonKey b = some x) :
    keyMatches a b = true := by
  unfold keyMatches
  simp [ha, hb]

theorem keyMatches_trans {a b c : JVal}
    (h1 : keyMatches a b = true) (h2 : keyMatches b c = true) :
    keyMatches a c = true := by
  obtain ⟨e1, s1⟩ := canon_of_keyMatches h1
  obtain ⟨e2, _⟩ := canon_of_keyMatches h2
  obtain ⟨x, hx⟩ := Option.isSome_iff_exists.mp s1
  exact keyMatches_of_canon hx (by rw [← e2, ← e1, hx])

theorem objGet_objSet_self (fs : List (String × JVal)) (k : String) (v : JVal) :
    objGet (objSet fs k v) k = some v := by
  induction fs with
  | nil => simp [objGet, objSet]
  | cons p rest ih =>
    by_cases hp : p.1 = k <;> simp [objGet, objSet, hp, ih]

theorem objGet_objSet_ne (fs : List (String × JVal)) (k k2 : String) (v : JVal)
    (hne : k2 ≠ k) : objGet (objSet fs k v) k2 = objGet fs k2 := by
  induction fs with
  | nil => simp [objGet, objSet, hne.symm]
  | cons p rest ih =>
    by_cases hp : p.1 = k
    · simp [objGet, objSet, hp, hne.symm]
    · by_cases hq : p.1 = k2 <;> simp [objGet, objSet, hp, hq, hne, ih]

theorem objGet_objSet_isSome (fs : List (String × JVal)) (k : String) (v : JVal)
    (h : (objGet fs k).isSome = true) (key : String) :
    (objGet (objSet fs k v) key).isSome = (objGet fs key).isSome := by
  by_cases hk : key = k
  · subst hk
    rw [objGet_objSet_self]
    simp [h]
  · rw [objGet_objSet_ne fs k key v hk]

theorem dictGet_dictSet (m : Catalog) (k v k2 : JVal) :
    dictGet (dictSet m k v) k2 =
      if keyMatches k k2 then some v else dictGet m k2 := by
  induction m with
  | nil => simp [dictGet, dictSet]
  | cons p rest ih =>
    by_cases hp : keyMatches p.1 k = true
    · have hiff : keyMatches p.1 k2 = keyMatches k k2 := by
        by_cases hkk : keyMatches k k2 = true
        · rw [hkk]; exact keyMatches_trans hp hkk
        · rcases hpk2 : keyMatches p.1 k2 with _ | _
          · simp [hkk]
          · exact absurd (keyMatches_trans (keyMatches_symm p.1 k ▸ hp) hpk2) hkk
      rcases hkk : keyMatches k k2 with _ | _ <;>
        simp [dictGet, dictSet, hp, hiff, hkk]
    · by_cases hpk2 : keyMatches p.1 k2 = true
      · have hkk : keyMatches k k2 = false := by
          rcases hx : keyMatches k k2 with _ | _
          · rfl
          · exact absurd (keyMatches_trans hpk2 (keyMatches_symm k k2 ▸ hx)) hp
        simp [dictGet, dictSet, hp, hpk2, hkk]
      · simp [dictGet, dictSet, hp, hpk2, ih]

theorem dictSet_keys (m : Catalog) (k v : JVal) :
    (dictSet m k v).map Prod.fst =
      if (dictGet m k).isSome then m.map Prod.fst else m.map Prod.fst ++ [k] := by
  induction m with
  | nil => simp [dictGet, dictSet]
  | cons p rest ih =>
    by_cases hp : keyMatches p.1 k = true
    · simp [dictGet, dictSet, hp, ih]
    · simp [dictGet, dictSet, hp, ih]
      by_cases hr : (dictGet rest k).isSome = true <;> simp [hr]

theorem dictSet_length (m : Catalog) (k v : JVal) :
    (dictSet m k v).length =
      if (dictGet m k).isSome then m.length else m.length + 1 := by
  have h := congrArg List.length (dictSet_keys m k v)
  simp only [List.length_map] at h
  rw [h]
  by_cases hr : (dictGet m k).isSome = true <;> simp [hr]

theorem dictGet_isSome_exists {m : Catalog} {k : JVal}
    (h : (dictGet m k).isSome = true) :
    ∃ p ∈ m, keyMatches p.1 k = true := by
  induction m with
  | nil => simp [dictGet] at h
  | cons p rest ih =>
    by_cases hp : keyMatches p.1 k = true
    · exact ⟨p, List.mem_cons_self p rest, hp⟩
    · simp [dictGet, hp] at h
      obtain ⟨q, hq, hqk⟩ := ih h
      exact ⟨q, List.mem_cons_of_mem p hq, hqk⟩

theorem mem_dictSet_keys {m : Catalog} {k v : JVal} {q : JVal × JVal}
    (h : q ∈ dictSet m k v) : q.1 ∈ m.map Prod.fst ∨ q.1 = k := by
  induction m with
  | nil =>
    simp [dictSet] at h
    simp [h]
  | cons p rest ih =>
    by_cases hp : keyMatches p.1 k = true
    · simp only [dictSet] at h
      rw [if_pos hp] at h
      rcases List.mem_cons.mp h with rfl | hmem
      · simp
      · exact Or.inl (List.mem_map.mpr ⟨q, List.mem_cons_of_mem p hmem, rfl⟩)
    · simp only [dictSet] at h
      rw [if_neg hp] at h
      rcases List.mem_cons.mp h with rfl | hmem
      · simp
      · rcases ih hmem with hm | hk
        · left
          simp only [List.map_cons, List.mem_cons]
          exact Or.inr hm
        · exact Or.inr hk

theorem dictSet_pairwise {m : Catalog} {k v : JVal}
    (h : m.Pairwise (fun a b => keyMatches a.1 b.1 = false)) :
    (dictSet m k v).Pairwise (fun a b => keyMatches a.1 b.1 = false) := by
  induction m with
  | nil => simp [dictSet]
  | cons p rest ih =>
    rw [List.pairwise_cons] at h
    by_cases hp : keyMatches p.1 k = true
    · simp only [dictSet, hp, if_pos]
      exact List.pairwise_cons.mpr ⟨h.1, h.2⟩
    · simp only [dictSet, hp]
      rw [if_neg (by simp [hp])]
      refine List.pairwise_cons.mpr ⟨?_, ih h.2⟩
      intro q hq
      rcases mem_dictSet_keys hq with hmem | heq
      · obtain ⟨r, hr, hrq⟩ := List.mem_map.mp hmem
        have := h.1 r hr
        rw [← hrq]
        exact this
      · rw [heq]
        rcases hx : keyMatches p.1 k with _ | _
        · rfl
        · exact absurd hx (by simp [hp])

theorem effStackPy_spec (gs : List (String × JVal))
    (h : (asNum ((objGet gs "stackSize").getD (.num 1))).isSome = true) :
    effStackPy ((objGet gs "stackSize").getD (.num 1)) = .ok (specStackSize gs) := by
  rcases hsv : objGet gs "stackSize" with _ | v
  · norm_num [effStackPy, asNum, specStackSize, hsv]
  · rw [hsv] at h
    rcases hnv : asNum v with _ | q
    · rw [Option.getD_some, hnv] at h
      simp at h
    · simp [effStackPy, hnv, specStackSize, hsv]

theorem ingLoop_formula (m : Catalog) (rpairs : List (String × JVal)) :
    ∀ acc : ℚ,
      (∀ p ∈ rpairs, ∃ gs, dictGet m (.str p.1) = some (.obj gs) ∧
        (asNum ((objGet gs "stackSize").getD (.num 1))).isSome = true) →
      (∀ p ∈ rpairs, (asNum p.2).isSome = true) →
      ingLoop m rpairs acc = .ok (some (acc + specIngredientSpace m rpairs)) := by
  induction rpairs with
  | nil =>
    intro acc _ _
    simp [ingLoop, specIngredientSpace]
  | cons hd rest ih =>
    intro acc hing hq
    obtain ⟨gs, hgs, hss⟩ := hing hd (List.mem_cons_self hd rest)
    obtain ⟨qn, hqn⟩ := Option.isSome_iff_exists.mp (hq hd (List.mem_cons_self hd rest))
    have hrec := ih (acc + qn / specStackSize gs)
      (fun p hp => hing p (List.mem_cons_of_mem hd hp))
      (fun p hp => hq p (List.mem_cons_of_mem hd hp))
    rcases hd with ⟨iid, qty⟩
    simp only at hgs hqn
    simp only [ingLoop, hgs, effStackPy_spec gs hss, hqn, hrec]
    have hsum : specIngredientSpace m ((iid, qty) :: rest) =
        qn / specStackSize gs + specIngredientSpace m rest := by
      simp [specIngredientSpace, specIngStack, hgs, hqn]
    rw [hsum, ← add_assoc]

/-- C1: for an item with a non-empty recipe whose ingredient IDs are all in
the catalog (and whose numeric fields are numbers, as the data model
requires), calculate_savings returns exactly the spec's ingredientSpace
minus targetSpace, with the default-and-clamp rule for stack sizes and no
rounding of the final value. -/
theorem calculate_savings_matches_spec (fs : List (String × JVal)) (m : Catalog)
    (rpairs : List (String × JVal))
    (hr : objGet fs "recipe" = some (.obj rpairs))
    (hne : rpairs ≠ [])
    (hing : ∀ p ∈ rpairs, ∃ gs, dictGet m (.str p.1) = some (.obj gs) ∧
      (asNum ((objGet gs "stackSize").getD (.num 1))).isSome = true)
    (hq : ∀ p ∈ rpairs, (asNum p.2).isSome = true)
    (hss : (asNum ((objGet fs "stackSize").getD (.num 1))).isSome = true)
    (hcq : (asNum ((objGet fs "craftQuantity").getD (.num 1))).isSome = true) :
    calculate_savings (.obj fs) m =
      .ok (some (specIngredientSpace m rpairs - specTargetSpace fs)) := by
  obtain ⟨cqn, hcqn⟩ := Option.isSome_iff_exists.mp hcq
  have hin : pyIn "recipe" (.obj fs) = .ok true := by simp [pyIn, hr]
  have hidx : pyIndex (.obj fs) "recipe" = .ok (.obj rpairs) := by simp [pyIndex, hr]
  have htr : truthy (.obj rpairs) = true := by
    cases rpairs with
    | nil => exact absurd rfl hne
    | cons a l => simp [truthy]
  simp only [calculate_savings, hin, hidx, htr,
    ingLoop_formula m rpairs 0 hing hq, effStackPy_spec fs hss, hcqn,
    Bool.true_eq_false, if_false]
  rw [show specTargetSpace fs = cqn / specStackSize fs from by
    simp [specTargetSpace, hcqn], zero_add]

/-- Witness for C1 at the spec's worked example: recipe consisting of four
units of A, A stacking to 8, the item crafting one unit stacking to 1, gives
savings of minus one half. -/
theorem calculate_savings_matches_spec_witness :
    calculate_savings
      (.obj [("id", .str "I"), ("recipe", .obj [("A", .num 4)]),
             ("craftQuantity", .num 1), ("stackSize", .num 1)])
      [(.str "A", .obj [("id", .str "A"), ("stackSize", .num 8)])] =
      .ok (some (-(1/2 : ℚ))) := by
  have h := calculate_savings_matches_spec
    [("id", .str "I"), ("recipe", .obj [("A", .num 4)]),
     ("craftQuantity", .num 1), ("stackSize", .num 1)]
    [(.str "A", .obj [("id", .str "A"), ("stackSize", .num 8)])]
    [("A", .num 4)]
    rfl (by simp)
    (by
      intro p hp
      rw [List.mem_singleton] at hp
      subst hp
      exact ⟨[("id", .str "A"), ("stackSize", .num 8)], rfl, rfl⟩)
    (by
      intro p hp
      rw [List.mem_singleton] at hp
      subst hp
      rfl)
    rfl rfl
  rw [h]
  norm_num +decide [specIngredientSpace, specIngStack, specStackSize,
    specTargetSpace, dictGet, keyMatches, canonKey, objGet, asNum]

theorem ingLoop_missing (m : Catalog) (rpairs : List (String × JVal)) :
    ∀ acc : ℚ,
      (∃ p ∈ rpairs, dictGet m (.str p.1) = none) →
      (∀ p ∈ rpairs, ∀ ing, dictGet m (.str p.1) = some ing →
        ∃ gs, ing = .obj gs ∧
          (asNum ((objGet gs "stackSize").getD (.num 1))).isSome = true) →
      (∀ p ∈ rpairs, (asNum p.2).isSome = true) →
      ingLoop m rpairs acc = .ok none := by
  induction rpairs with
  | nil =>
    intro acc hmiss _ _
    obtain ⟨p, hp, _⟩ := hmiss
    simp at hp
  | cons hd rest ih =>
    intro acc hmiss hing hq
    rcases hd with ⟨iid, qty⟩
    rcases hg : dictGet m (.str iid) with _ | ing
    · simp [ingLoop, hg]
    · obtain ⟨gs, rfl, hss⟩ :=
        hing ⟨iid, qty⟩ (List.mem_cons_self _ _) ing (by simpa using hg)
      obtain ⟨qn, hqn⟩ :=
        Option.isSome_iff_exists.mp (hq ⟨iid, qty⟩ (List.mem_cons_self _ _))
      have hmiss2 : ∃ p ∈ rest, dictGet m (.str p.1) = none := by
        obtain ⟨p, hp, hpn⟩ := hmiss
        rcases List.mem_cons.mp hp with rfl | hp2
        · simp only at hpn
          rw [hg] at hpn
          cases hpn
        · exact ⟨p, hp2, hpn⟩
      simp only at hqn
      simp only [ingLoop, hg, effStackPy_spec gs hss, hqn]
      exact ih _ hmiss2 (fun p hp => hing p (List.mem_cons_of_mem _ hp))
        (fun p hp => hq p (List.mem_cons_of_mem _ hp))

/-- C2: a recipe referencing at least one ingredient ID absent from the
catalog makes calculate_savings return None (the partial sum is discarded),
and the publisher then republishes the record unchanged, with no
stashSavings field set by the calculation. -/
theorem missing_ingredient_not_applicable (fs : List (String × JVal))
    (m : Catalog) (rpairs : List (String × JVal))
    (hr : objGet fs "recipe" = some (.obj rpairs))
    (hmiss : ∃ p ∈ rpairs, dictGet m (.str p.1) = none)
    (hing : ∀ p ∈ rpairs, ∀ ing, dictGet m (.str p.1) = some ing →
      ∃ gs, ing = .obj gs ∧
        (asNum ((objGet gs "stackSize").getD (.num 1))).isSome = true)
    (hq : ∀ p ∈ rpairs, (asNum p.2).isSome = true) :
    calculate_savings (.obj fs) m = .ok none ∧
      processFile m (.obj fs) = .ok (.obj fs, false) := by
  have hne : rpairs ≠ [] := by
    obtain ⟨p, hp, _⟩ := hmiss
    intro hnil
    rw [hnil] at hp
    simp at hp
  have hin : pyIn "recipe" (.obj fs) = .ok true := by simp [pyIn, hr]
  have hidx : pyIndex (.obj fs) "recipe" = .ok (.obj rpairs) := by
    simp [pyIndex, hr]
  have htr : truthy (.obj rpairs) = true := by
    cases rpairs with
    | nil => exact absurd rfl hne
    | cons a l => simp [truthy]
  have hcs : calculate_savings (.obj fs) m = .ok none := by
    simp only [calculate_savings, hin, hidx, htr, Bool.true_eq_false, if_false,
      ingLoop_missing m rpairs 0 hmiss hing hq]
  refine ⟨hcs, ?_⟩
  have hid : pyIn "id" (.obj fs) = .ok (objGet fs "id").isSome := rfl
  rcases hb : (objGet fs "id").isSome with _ | _
  · simp [processFile, hid, hb]
  · simp [processFile, hid, hb, hcs]

/-- Witness for C2: a recipe needing ingredient B against an empty catalog
yields None and an unchanged published record. -/
theorem missing_ingredient_not_applicable_witness :
    calculate_savings (.obj [("id", .str "I"), ("recipe", .obj [("B", .num 2)])])
        [] = .ok none ∧
      processFile [] (.obj [("id", .str "I"), ("recipe", .obj [("B", .num 2)])]) =
        .ok (.obj [("id", .str "I"), ("recipe", .obj [("B", .num 2)])], false) :=
  missing_ingredient_not_applicable _ [] [("B", .num 2)] rfl
    ⟨("B", .num 2), List.mem_singleton.mpr rfl, rfl⟩
    (by
      intro p hp ing hi
      rw [List.mem_singleton] at hp
      subst hp
      simp [dictGet] at hi)
    (by
      intro p hp
      rw [List.mem_singleton] at hp
      subst hp
      rfl)

/-- C3 counterexample: a source record with no recipe but with a leftover
stashSavings field of 99 is republished to the destination still carrying
that field, so the published record does have a stashSavings field. -/
theorem stale_stashSavings_survives :
    (main true (some [⟨"x.json",
        some (.obj [("id", .str "x"), ("stashSavings", .num 99)])⟩])).dest =
      [("x.json", .obj [("id", .str "x"), ("stashSavings", .num 99)])] ∧
    jLookup (.obj [("id", .str "x"), ("stashSavings", .num 99)]) "stashSavings" =
      some (.num 99) :=
  ⟨rfl, rfl⟩

/-- C3 amended: for a record whose recipe field is absent or empty the
calculation is not applicable and the publisher writes the record unchanged:
it never sets a stashSavings field, but a stashSavings field already present
in the source record is carried through to the destination, not removed. -/
theorem no_recipe_record_unchanged (fs : List (String × JVal)) (m : Catalog)
    (h : objGet fs "recipe" = none ∨ objGet fs "recipe" = some (.obj [])) :
    calculate_savings (.obj fs) m = .ok none ∧
      processFile m (.obj fs) = .ok (.obj fs, false) := by
  have hcs : calculate_savings (.obj fs) m = .ok none := by
    rcases h with h | h
    · simp [calculate_savings, pyIn, h]
    · simp [calculate_savings, pyIn, pyIndex, h, truthy]
  refine ⟨hcs, ?_⟩
  have hid : pyIn "id" (.obj fs) = .ok (objGet fs "id").isSome := rfl
  rcases hb : (objGet fs "id").isSome with _ | _
  · simp [processFile, hid, hb]
  · simp [processFile, hid, hb, hcs]

/-- Witness for the amended C3 at the counterexample record: the calculator
returns None and the publisher leaves the leftover field in place. -/
theorem no_recipe_record_unchanged_witness :
    calculate_savings (.obj [("id", .str "x"), ("stashSavings", .num 99)]) [] =
        .ok none ∧
      processFile [] (.obj [("id", .str "x"), ("stashSavings", .num 99)]) =
        .ok (.obj [("id", .str "x"), ("stashSavings", .num 99)], false) :=
  no_recipe_record_unchanged _ [] (Or.inl rfl)

/-- C6: a missing source directory yields an empty mapping from the loader
and the run halts having written no files; more generally any run whose
loaded mapping is empty performs no per-file processing. -/
theorem missing_source_fatal (dExists : Bool) :
    load_items none = .ok [] ∧
    (main dExists none).dest = [] ∧
    (main dExists none).processed = 0 ∧
    (main dExists none).crashed = false ∧
    (∀ files : List FileEntry, load_items (some files) = .ok [] →
      (main dExists (some files)).dest = [] ∧
      (main dExists (some files)).processed = 0) := by
  refine ⟨rfl, rfl, rfl, rfl, ?_⟩
  intro files h
  simp [main, h]

/-- Witness for C6: a source holding one record without an id loads to an
empty mapping and the run writes nothing. -/
theorem missing_source_fatal_witness :
    (main true (some [⟨"a.json", some (.obj [])⟩])).dest = [] ∧
    (main true (some [⟨"a.json", some (.obj [])⟩])).processed = 0 :=
  (missing_source_fatal true).2.2.2.2 [⟨"a.json", some (.obj [])⟩] rfl

/-- C7: on every run the destination reset events come before the source
existence check in the trace, and a run whose source directory is missing
still clears the destination and leaves it empty. -/
theorem reset_precedes_source_check (dExists : Bool)
    (src : Option (List FileEntry)) :
    (∃ tl, (main dExists src).trace =
      (if dExists then [Event.clearDest] else []) ++
        Event.makeDest :: Event.checkSource :: tl) ∧
    (main dExists none).dest = [] ∧ (main dExists none).crashed = false := by
  refine ⟨?_, rfl, rfl⟩
  rcases h : load_items src with e | m
  · exact ⟨[Event.crash], by simp [main, h, preamble]⟩
  · by_cases hm : m.isEmpty = true
    · exact ⟨[Event.noItems], by simp [main, h, hm, preamble]⟩
    · refine ⟨(processLoop m (globJson (src.getD [])) ⟨[], false, 0, 0⟩).dest.map
          (fun p => Event.writeFile p.1) ++
        (if (processLoop m (globJson (src.getD [])) ⟨[], false, 0, 0⟩).crashed
          then [Event.crash] else []), ?_⟩
      simp [main, h, hm, preamble]

/-- C9 counterexample: a file that parses fine but whose recipe is a truthy
non-mapping value makes the run abort with nothing processed, so a source
file with malformed field values can end the run. -/
theorem malformed_recipe_aborts :
    (main true (some [⟨"a.json",
        some (.obj [("id", .str "a"), ("recipe", .str "x")])⟩])).crashed = true ∧
    (main true (some [⟨"a.json",
        some (.obj [("id", .str "a"), ("recipe", .str "x")])⟩])).processed = 0 :=
  ⟨rfl, rfl⟩

/-- C9 amended: a source file whose contents do not parse as a record never
aborts the run: the loader and the publisher both skip it and continue with
the remaining files, and the publisher does not copy it. -/
theorem unparseable_file_skipped (m : Catalog) (name : String)
    (rest : List FileEntry) (acc : ProcAcc) (cacc : Catalog) :
    processLoop m (⟨name, none⟩ :: rest) acc = processLoop m rest acc ∧
    loadLoop (⟨name, none⟩ :: rest) cacc = loadLoop rest cacc :=
  ⟨rfl, rfl⟩

theorem processFile_shape {m : Catalog} {data d : JVal} {c : Bool}
    (h : processFile m data = .ok (d, c)) :
    d = data ∨
      ∃ fs s, data = .obj fs ∧ d = .obj (objSet fs "stashSavings" (.num s)) := by
  unfold processFile at h
  rcases hin : pyIn "id" data with e | b
  · rw [hin] at h
    cases h
  · rw [hin] at h
    cases b
    · simp at h
      exact Or.inl h.1.symm
    · rcases hcs : calculate_savings data m with e | r
      · rw [hcs] at h
        cases h
      · rw [hcs] at h
        rcases r with _ | s
        · simp at h
          exact Or.inl h.1.symm
        · rcases data with _ | _ | _ | _ | _ | fs
          all_goals simp at h
          exact Or.inr ⟨fs, s, rfl, h.1.symm⟩

theorem jLookup_processFile {m : Catalog} {data d : JVal} {c : Bool}
    (h : processFile m data = .ok (d, c)) (k : String)
    (hk : k ≠ "stashSavings") : jLookup d k = jLookup data k := by
  rcases processFile_shape h with rfl | ⟨fs, s, rfl, rfl⟩
  · rfl
  · simp [jLookup, objGet_objSet_ne fs "stashSavings" k (.num s) hk]

theorem processLoop_frame (m : Catalog) :
    ∀ (files : List FileEntry) (acc : ProcAcc) (p : String × JVal),
      p ∈ (processLoop m files acc).dest →
      p ∈ acc.dest ∨ ∃ fe ∈ files, fe.name = p.1 ∧
        ∃ dat, fe.content = some dat ∧
          ∀ k, k ≠ "stashSavings" → jLookup p.2 k = jLookup dat k := by
  intro files
  induction files with
  | nil =>
    intro acc p hp
    exact Or.inl hp
  | cons fe rest ih =>
    intro acc p hp
    obtain ⟨nm, cont⟩ := fe
    rcases cont with _ | data
    · have hp2 : p ∈ (processLoop m rest acc).dest := hp
      rcases ih acc p hp2 with hl | ⟨fe2, hfe2, hrest⟩
      · exact Or.inl hl
      · exact Or.inr ⟨fe2, List.mem_cons_of_mem _ hfe2, hrest⟩
    · have heq : processLoop m (⟨nm, some data⟩ :: rest) acc =
        match processFile m data with
        | .error _ => ⟨acc.dest, true, acc.processed, acc.calculated⟩
        | .ok (d, c) => processLoop m rest
            ⟨acc.dest ++ [(nm, d)], acc.crashed, acc.processed + 1,
             acc.calculated + (if c then 1 else 0)⟩ := rfl
      rcases hpf : processFile m data with e | ⟨d, c⟩
      · have hp2 : p ∈ acc.dest := by
          rw [heq, hpf] at hp
          exact hp
        exact Or.inl hp2
      · have hp2 : p ∈ (processLoop m rest
            ⟨acc.dest ++ [(nm, d)], acc.crashed, acc.processed + 1,
             acc.calculated + (if c then 1 else 0)⟩).dest := by
          rw [heq, hpf] at hp
          exact hp
        rcases ih _ p hp2 with hl | ⟨fe2, hfe2, hrest⟩
        · rcases List.mem_append.mp hl with hl2 | hl2
          · exact Or.inl hl2
          · rw [List.mem_singleton] at hl2
            subst hl2
            exact Or.inr ⟨⟨nm, some data⟩, List.mem_cons_self _ rest, rfl,
              data, rfl, fun k hk => jLookup_processFile hpf k hk⟩
        · exact Or.inr ⟨fe2, List.mem_cons_of_mem _ hfe2, hrest⟩

/-- C5: every record written to the destination directory comes from a
successfully parsed source file of the same name and agrees with that source
record on every field other than stashSavings. -/
theorem published_records_frame (dExists : Bool) (files : List FileEntry)
    (p : String × JVal) (hp : p ∈ (main dExists (some files)).dest) :
    ∃ fe ∈ files, fe.name = p.1 ∧ ∃ dat, fe.content = some dat ∧
      ∀ k, k ≠ "stashSavings" → jLookup p.2 k = jLookup dat k := by
  unfold main at hp
  rcases h : load_items (some files) with e | m
  · rw [h] at hp
    simp at hp
  · rw [h] at hp
    by_cases hm : m.isEmpty = true
    · simp [hm] at hp
    · simp only [hm, Bool.false_eq_true, if_false] at hp
      rcases processLoop_frame m (globJson files) ⟨[], false, 0, 0⟩ p
          (by simpa using hp) with hl | ⟨fe, hfe, hrest⟩
      · simp at hl
      · exact ⟨fe, (List.mem_filter.mp hfe).1, hrest⟩

/-- Witness for C5: a run over one simple record republishes it with every
field other than stashSavings unchanged. -/
theorem published_records_frame_witness :
    ∃ fe ∈ [FileEntry.mk "x.json" (some (.obj [("id", .str "x")]))],
      fe.name = "x.json" ∧ ∃ dat, fe.content = some dat ∧
        ∀ k, k ≠ "stashSavings" →
          jLookup (.obj [("id", .str "x")]) k = jLookup dat k :=
  published_records_frame true [⟨"x.json", some (.obj [("id", .str "x")])⟩]
    ("x.json", .obj [("id", .str "x")])
    (by
      rw [show (main true
          (some [⟨"x.json", some (.obj [("id", .str "x")])⟩])).dest =
        [("x.json", .obj [("id", .str "x")])] from rfl]
      exact List.mem_singleton.mpr rfl)

theorem globJson_filter (files : List FileEntry) :
    globJson (files.filter (fun fe => matchesJson fe.name)) = globJson files := by
  simp [globJson, List.filter_filter]

/-- C10: only files matching the json glob are considered by either scan:
the whole run is unchanged when every non-matching file is removed from the
source, and every written destination file has a matching source name. -/
theorem only_json_files (dExists : Bool) (files : List FileEntry) :
    load_items (some files) =
      load_items (some (files.filter (fun fe => matchesJson fe.name))) ∧
    main dExists (some files) =
      main dExists (some (files.filter (fun fe => matchesJson fe.name))) ∧
    ∀ p ∈ (main dExists (some files)).dest,
      ∃ fe ∈ files, matchesJson fe.name = true ∧ p.1 = fe.name := by
  have hg := globJson_filter files
  have h1 : load_items (some files) =
      load_items (some (files.filter (fun fe => matchesJson fe.name))) := by
    simp [load_items, hg]
  refine ⟨h1, ?_, ?_⟩
  · simp only [main, ← h1, Option.getD_some, hg]
  · intro p hp
    unfold main at hp
    rcases h : load_items (some files) with e | m
    · rw [h] at hp
      simp at hp
    · rw [h] at hp
      by_cases hm : m.isEmpty = true
      · simp [hm] at hp
      · simp only [hm, Bool.false_eq_true, if_false] at hp
        rcases processLoop_frame m (globJson files) ⟨[], false, 0, 0⟩ p
            (by simpa using hp) with hl | ⟨fe, hfe, hname, _⟩
        · simp at hl
        · have := List.mem_filter.mp hfe
          exact ⟨fe, this.1, this.2, hname.symm⟩

/-- Witness for C10: with one matching and one non-matching file, the single
written record is the one from the matching file. -/
theorem only_json_files_witness :
    ∃ fe ∈ [FileEntry.mk "x.json" (some (.obj [("id", .str "x")])),
        FileEntry.mk "y.txt" (some (.obj [("id", .str "y")]))],
      matchesJson fe.name = true ∧ "x.json" = fe.name :=
  (only_json_files true
      [⟨"x.json", some (.obj [("id", .str "x")])⟩,
       ⟨"y.txt", some (.obj [("id", .str "y")])⟩]).2.2
    ("x.json", .obj [("id", .str "x")])
    (by
      rw [show (main true (some
          [⟨"x.json", some (.obj [("id", .str "x")])⟩,
           ⟨"y.txt", some (.obj [("id", .str "y")])⟩])).dest =
        [("x.json", .obj [("id", .str "x")])] from rfl]
      exact List.mem_singleton.mpr rfl)

theorem clampFields_get_ne (gs : List (String × JVal)) (k : String)
    (hk : k ≠ "stackSize") : objGet (clampFields gs) k = objGet gs k := by
  unfold clampFields
  rcases h : objGet gs "stackSize" with _ | v
  · rfl
  · rcases v with _ | b | q | s | es | fs2
    case num =>
      by_cases hq : q ≤ 0
      · simp only [if_pos hq]
        exact objGet_objSet_ne gs "stackSize" k (.num 1) hk
      · simp only [if_neg hq]
    all_goals rfl

theorem clampFields_isSome (gs : List (String × JVal)) (key : String) :
    (objGet (clampFields gs) key).isSome = (objGet gs key).isSome := by
  unfold clampFields
  rcases h : objGet gs "stackSize" with _ | v
  · rfl
  · rcases v with _ | b | q | s | es | fs2
    case num =>
      by_cases hq : q ≤ 0
      · simp only [if_pos hq]
        exact objGet_objSet_isSome gs "stackSize" (.num 1) (by simp [h]) key
      · simp only [if_neg hq]
    all_goals rfl

theorem clampFields_eff (gs : List (String × JVal)) :
    effStackPy ((objGet (clampFields gs) "stackSize").getD (.num 1)) =
      effStackPy ((objGet gs "stackSize").getD (.num 1)) := by
  unfold clampFields
  rcases h : objGet gs "stackSize" with _ | v
  · simp [h]
  · rcases v with _ | b | q | s | es | fs2
    case num =>
      by_cases hq : q ≤ 0
      · simp only [if_pos hq, objGet_objSet_self, h, Option.getD_some]
        norm_num [effStackPy, asNum, hq]
      · simp only [if_neg hq, h]
    all_goals simp [h]

theorem dictGet_mapVal (f : JVal → JVal) (m : Catalog) (k : JVal) :
    dictGet (m.map (fun p => (p.1, f p.2))) k = (dictGet m k).map f := by
  induction m with
  | nil => rfl
  | cons p rest ih =>
    by_cases hp : keyMatches p.1 k = true <;> simp [dictGet, hp, ih]

theorem ingLoop_clamp (m : Catalog) (rpairs : List (String × JVal)) :
    ∀ acc : ℚ, ingLoop (m.map (fun p => (p.1, clampStack p.2))) rpairs acc =
      ingLoop m rpairs acc := by
  induction rpairs with
  | nil =>
    intro acc
    rfl
  | cons hd rest ih =>
    intro acc
    rcases hd with ⟨iid, qty⟩
    have hmap := dictGet_mapVal clampStack m (.str iid)
    rcases hg : dictGet m (.str iid) with _ | ing
    · rw [hg] at hmap
      simp only [Option.map_none'] at hmap
      simp only [ingLoop, hmap, hg]
    · rw [hg] at hmap
      simp only [Option.map_some'] at hmap
      rcases ing with _ | b | q | s | es | gs
      case obj =>
        simp only [ingLoop]
        rw [hmap, hg]
        simp only [clampStack]
        rw [clampFields_eff gs]
        rcases h2 : effStackPy ((objGet gs "stackSize").getD (.num 1)) with e | ss
        · rfl
        · rcases h3 : asNum qty with _ | qn
          · rfl
          · exact ih _
      all_goals simp only [ingLoop]
      all_goals rw [hmap, hg]
      all_goals rfl

theorem calculate_savings_clamp (item : JVal) (m : Catalog) :
    calculate_savings (clampStack item)
        (m.map (fun p => (p.1, clampStack p.2))) =
      calculate_savings item m := by
  rcases item with _ | b | q | s | es | fs
  · rfl
  · rfl
  · rfl
  · cases hsc : strContainsSub s "recipe" <;>
      simp [calculate_savings, pyIn, pyIndex, clampStack, hsc]
  · cases hsc : (es.any fun e =>
        match e with
        | .str t => t == "recipe"
        | _ => false) <;>
      simp [calculate_savings, pyIn, pyIndex, clampStack, hsc]
  · have hne1 : "recipe" ≠ "stackSize" := by decide
    have hne2 : "craftQuantity" ≠ "stackSize" := by decide
    show calculate_savings (.obj (clampFields fs)) _ = calculate_savings (.obj fs) m
    simp only [calculate_savings, pyIn, clampFields_isSome fs "recipe"]
    rcases hr : objGet fs "recipe" with _ | r
    · simp [hr]
    · simp only [hr, Option.isSome_some]
      have hidx1 : pyIndex (.obj (clampFields fs)) "recipe" = .ok r := by
        simp [pyIndex, clampFields_get_ne fs "recipe" hne1, hr]
      have hidx2 : pyIndex (.obj fs) "recipe" = .ok r := by
        simp [pyIndex, hr]
      simp only [hidx1, hidx2]
      rcases htr : truthy r with _ | _
      · simp [htr]
      · simp only [htr, Bool.true_eq_false, if_false]
        rcases r with _ | b2 | q2 | s2 | es2 | rpairs
        case obj =>
          simp only [ingLoop_clamp m rpairs 0]
          rcases hil : ingLoop m rpairs 0 with e | r2
          · rfl
          · rcases r2 with _ | S
            · rfl
            · simp only [clampFields_eff fs]
              rcases hes : effStackPy ((objGet fs "stackSize").getD (.num 1))
                  with e | tss
              · rfl
              · simp only [clampFields_get_ne fs "craftQuantity" hne2]
        all_goals rfl

/-- C4: for every record, item or ingredient, a stackSize at most 0 behaves
exactly as stackSize 1: clamping every such record (the item and the whole
catalog) leaves calculate_savings unchanged, the clamped record is literally
the record with stackSize set to 1, and every effective stack size the code
divides by is positive, so no division by zero or by a negative number
occurs. -/
theorem degenerate_stackSize_clamped :
    (∀ (item : JVal) (m : Catalog),
      calculate_savings (clampStack item)
          (m.map (fun p => (p.1, clampStack p.2))) =
        calculate_savings item m) ∧
    (∀ (gs : List (String × JVal)) (q : ℚ), q ≤ 0 →
      objGet gs "stackSize" = some (.num q) →
        clampStack (.obj gs) = .obj (objSet gs "stackSize" (.num 1))) ∧
    (∀ (v : JVal) (s : ℚ), effStackPy v = .ok s → 0 < s) := by
  refine ⟨calculate_savings_clamp, ?_, ?_⟩
  · intro gs q hq hg
    simp [clampStack, clampFields, hg, hq]
  · intro v s h
    unfold effStackPy at h
    rcases hv : asNum v with _ | q
    · rw [hv] at h
      cases h
    · rw [hv] at h
      simp only [Except.ok.injEq] at h
      rw [← h]
      by_cases hq : q ≤ 0
      · rw [if_pos hq]
        norm_num
      · rw [if_neg hq]
        exact lt_of_not_ge hq

/-- Witness for C4 at a record with stackSize 0: clamping it changes nothing
in the calculation, it is exactly the record with stackSize 1, and the
effective stack size 1 produced for it is positive. -/
theorem degenerate_stackSize_clamped_witness :
    calculate_savings (clampStack (.obj [("stackSize", .num 0)]))
        (([] : Catalog).map (fun p => (p.1, clampStack p.2))) =
      calculate_savings (.obj [("stackSize", .num 0)]) [] ∧
    clampStack (.obj [("stackSize", .num 0)]) =
      .obj (objSet [("stackSize", .num 0)] "stackSize" (.num 1)) ∧
    (0 : ℚ) < 1 := by
  obtain ⟨h1, h2, h3⟩ := degenerate_stackSize_clamped
  exact ⟨h1 (.obj [("stackSize", .num 0)]) [],
    h2 [("stackSize", .num 0)] 0 (by norm_num) rfl,
    h3 (.num 0) 1 rfl⟩

theorem dictGet_isSome_of_exists {m : Catalog} {k : JVal}
    (h : ∃ p ∈ m, keyMatches p.1 k = true) : (dictGet m k).isSome = true := by
  induction m with
  | nil =>
    obtain ⟨p, hp, _⟩ := h
    simp at hp
  | cons p rest ih =>
    by_cases hp : keyMatches p.1 k = true
    · simp [dictGet, hp]
    · simp only [dictGet, hp, Bool.false_eq_true, if_false]
      obtain ⟨q, hq, hqk⟩ := h
      rcases List.mem_cons.mp hq with rfl | hq2
      · exact absurd hqk hp
      · exact ih ⟨q, hq2, hqk⟩

theorem dictSet_canonKeys (m : Catalog) (k v : JVal) :
    (dictSet m k v).map (fun p => canonKey p.1) =
      if (dictGet m k).isSome then m.map (fun p => canonKey p.1)
      else m.map (fun p => canonKey p.1) ++ [canonKey k] := by
  induction m with
  | nil => simp [dictGet, dictSet]
  | cons p rest ih =>
    by_cases hp : keyMatches p.1 k = true
    · simp [dictGet, dictSet, hp]
    · simp only [dictGet, dictSet, hp, Bool.false_eq_true, if_false,
        List.map_cons, ih]
      by_cases hr : (dictGet rest k).isSome = true <;> simp [hr]

theorem canonKeys_nodup {m : Catalog}
    (hpw : m.Pairwise (fun a b => keyMatches a.1 b.1 = false))
    (hc : ∀ p ∈ m, (canonKey p.1).isSome = true) :
    (m.map (fun p => canonKey p.1)).Nodup := by
  have hpw2 : m.Pairwise (fun a b => canonKey a.1 ≠ canonKey b.1) := by
    refine hpw.imp_of_mem ?_
    intro a b ha hb hab heq
    obtain ⟨x, hx⟩ := Option.isSome_iff_exists.mp (hc a ha)
    have hbx : canonKey b.1 = some x := by rw [← heq, hx]
    exact absurd (keyMatches_of_canon hx hbx) (by simp [hab])
  exact List.pairwise_map.mpr hpw2

theorem dictSet_canon_mem {m : Catalog} {k v : JVal}
    (hm : ∀ p ∈ m, (canonKey p.1).isSome = true)
    (hk : (canonKey k).isSome = true) :
    ∀ p ∈ dictSet m k v, (canonKey p.1).isSome = true := by
  intro p hp
  rcases mem_dictSet_keys hp with hmem | heq
  · obtain ⟨q, hq, hqp⟩ := List.mem_map.mp hmem
    rw [← hqp]
    exact hm q hq
  · rw [heq]
    exact hk

theorem extractId_canon {d k : JVal} (h : extractId d = .ok (some k)) :
    (canonKey k).isSome = true := by
  unfold extractId at h
  rcases h1 : pyIn "id" d with e | b
  · rw [h1] at h
    cases h
  · rw [h1] at h
    cases b
    · have h4 : (Except.ok none : Except Unit (Option JVal)) = .ok (some k) := h
      simp at h4
    · rcases h2 : pyIndex d "id" with e | k2
      · rw [h2] at h
        have h4 : (Except.error e : Except Unit (Option JVal)) = .ok (some k) := h
        cases h4
      · rw [h2] at h
        have h4 : (if (canonKey k2).isSome = true then
            (Except.ok (some k2) : Except Unit (Option JVal))
            else .error ()) = .ok (some k) := h
        by_cases h3 : (canonKey k2).isSome = true
        · rw [if_pos h3] at h4
          simp only [Except.ok.injEq, Option.some.injEq] at h4
          rw [← h4]
          exact h3
        · rw [if_neg h3] at h4
          cases h4

theorem specValidEntries_canon (files : List FileEntry) :
    ∀ p ∈ specValidEntries files, (canonKey p.1).isSome = true := by
  intro p hp
  unfold specValidEntries at hp
  obtain ⟨fe, _, hfe⟩ := List.mem_filterMap.mp hp
  rcases hc : fe.content with _ | d
  · rw [hc] at hfe
    cases hfe
  · rw [hc] at hfe
    have h6 : (match extractId d with
      | Except.ok (some k) => some (k, d)
      | _ => none) = some p := hfe
    rcases he : extractId d with e | r
    · rw [he] at h6
      have h4 : (none : Option (JVal × JVal)) = some p := h6
      cases h4
    · rw [he] at h6
      rcases r with _ | k
      · have h4 : (none : Option (JVal × JVal)) = some p := h6
        cases h4
      · have h4 : some (k, d) = some p := h6
        simp only [Option.some.injEq] at h4
        have h5 := extractId_canon he
        rw [← h4]
        exact h5

theorem loadLoop_eq_buildCat :
    ∀ (files : List FileEntry) (acc m : Catalog),
      loadLoop files acc = .ok m → m = buildCat (specValidEntries files) acc := by
  intro files
  induction files with
  | nil =>
    intro acc m h
    simp only [loadLoop, Except.ok.injEq] at h
    simp [specValidEntries, buildCat, h]
  | cons fe rest ih =>
    intro acc m h
    obtain ⟨nm, cont⟩ := fe
    rcases cont with _ | d
    · have h2 : loadLoop rest acc = .ok m := h
      have hs : specValidEntries (⟨nm, none⟩ :: rest) = specValidEntries rest := rfl
      rw [hs]
      exact ih acc m h2
    · have heq : loadLoop (⟨nm, some d⟩ :: rest) acc =
        match extractId d with
        | .error e => .error e
        | .ok none => loadLoop rest acc
        | .ok (some k) => loadLoop rest (dictSet acc k d) := rfl
      rcases he : extractId d with e | r
      · rw [heq, he] at h
        cases h
      · rcases r with _ | k
        · rw [heq, he] at h
          have hs : specValidEntries (⟨nm, some d⟩ :: rest) =
              specValidEntries rest := by
            simp [specValidEntries, he]
          rw [hs]
          exact ih acc m h
        · rw [heq, he] at h
          have hs : specValidEntries (⟨nm, some d⟩ :: rest) =
              (k, d) :: specValidEntries rest := by
            simp [specValidEntries, he]
          rw [hs]
          have hb : buildCat ((k, d) :: specValidEntries rest) acc =
              buildCat (specValidEntries rest) (dictSet acc k d) := rfl
          rw [hb]
          exact ih _ m h

theorem buildCat_pairwise :
    ∀ (l : List (JVal × JVal)) (acc : Catalog),
      acc.Pairwise (fun a b => keyMatches a.1 b.1 = false) →
      (buildCat l acc).Pairwise (fun a b => keyMatches a.1 b.1 = false) := by
  intro l
  induction l with
  | nil =>
    intro acc h
    exact h
  | cons hd tl ih =>
    intro acc h
    exact ih (dictSet acc hd.1 hd.2) (dictSet_pairwise h)

theorem dictGet_append (a b : Catalog) (k : JVal) :
    dictGet (a ++ b) k =
      match dictGet a k with
      | some v => some v
      | none => dictGet b k := by
  induction a with
  | nil => rfl
  | cons p rest ih =>
    by_cases hp : keyMatches p.1 k = true <;> simp [dictGet, hp, ih]

theorem buildCat_get :
    ∀ (l : List (JVal × JVal)) (acc : Catalog) (k : JVal),
      dictGet (buildCat l acc) k =
        match dictGet l.reverse k with
        | some v => some v
        | none => dictGet acc k := by
  intro l
  induction l with
  | nil =>
    intro acc k
    rfl
  | cons hd tl ih =>
    intro acc k
    have h1 : buildCat (hd :: tl) acc = buildCat tl (dictSet acc hd.1 hd.2) := rfl
    rw [h1, ih, List.reverse_cons, dictGet_append, dictGet_dictSet]
    rcases dictGet tl.reverse k with _ | v
    · simp only [dictGet]
      by_cases hk : keyMatches hd.1 k = true <;> simp [hk]
    · rfl

theorem buildCat_length :
    ∀ (l : List (JVal × JVal)) (acc : Catalog),
      acc.Pairwise (fun a b => keyMatches a.1 b.1 = false) →
      (∀ p ∈ acc, (canonKey p.1).isSome = true) →
      (∀ p ∈ l, (canonKey p.1).isSome = true) →
      (buildCat l acc).length =
        ((acc ++ l).map (fun p => canonKey p.1)).toFinset.card := by
  intro l
  induction l with
  | nil =>
    intro acc hpw hacc _
    have h1 : buildCat [] acc = acc := rfl
    rw [h1, List.append_nil, List.toFinset_card_of_nodup (canonKeys_nodup hpw hacc)]
    simp
  | cons hd tl ih =>
    intro acc hpw hacc hl
    have hk : (canonKey hd.1).isSome = true := hl hd (List.mem_cons_self hd tl)
    have h1 : buildCat (hd :: tl) acc = buildCat tl (dictSet acc hd.1 hd.2) := rfl
    rw [h1, ih (dictSet acc hd.1 hd.2) (dictSet_pairwise hpw)
      (dictSet_canon_mem hacc hk) (fun p hp => hl p (List.mem_cons_of_mem hd hp))]
    apply congrArg Finset.card
    rw [List.map_append, List.map_append, List.map_cons, dictSet_canonKeys]
    by_cases hm : (dictGet acc hd.1).isSome = true
    · rw [if_pos hm]
      obtain ⟨p, hp, hpk⟩ := dictGet_isSome_exists hm
      have hcanon : canonKey p.1 = canonKey hd.1 := (canon_of_keyMatches hpk).1
      have hkc : canonKey hd.1 ∈ (acc.map (fun p => canonKey p.1)).toFinset :=
        List.mem_toFinset.mpr (List.mem_map.mpr ⟨p, hp, hcanon⟩)
      rw [List.toFinset_append, List.toFinset_append, List.toFinset_cons,
        Finset.union_insert,
        Finset.insert_eq_self.mpr (Finset.mem_union_left _ hkc)]
    · rw [if_neg hm, List.append_assoc, List.singleton_append]

/-- C8: a catalog the loader produces has pairwise non-equal keys, exactly
one entry per distinct id; looking up any key returns the record of the last
file seen carrying that id (plain map-overwrite semantics); and its size is
the number of distinct valid IDs found among the parsed records. -/
theorem loader_catalog_invariant (files : List FileEntry) (m : Catalog)
    (h : load_items (some files) = .ok m) :
    m.Pairwise (fun a b => keyMatches a.1 b.1 = false) ∧
    (∀ k : JVal, dictGet m k =
      dictGet (specValidEntries (globJson files)).reverse k) ∧
    m.length = ((specValidEntries (globJson files)).map
      (fun p => canonKey p.1)).toFinset.card := by
  have hm : m = buildCat (specValidEntries (globJson files)) [] := by
    unfold load_items at h
    exact loadLoop_eq_buildCat (globJson files) [] m h
  subst hm
  refine ⟨buildCat_pairwise _ [] List.Pairwise.nil, ?_, ?_⟩
  · intro k
    rw [buildCat_get]
    rcases dictGet (specValidEntries (globJson files)).reverse k with _ | v
    · rfl
    · rfl
  · rw [buildCat_length _ [] List.Pairwise.nil (by simp)
      (specValidEntries_canon _), List.nil_append]

/-- Witness for C8: two parsed files carrying the same id produce a
one-entry catalog holding the later record. -/
theorem loader_catalog_invariant_witness :
    dictGet [(JVal.str "x", JVal.obj [("id", JVal.str "x"), ("v", JVal.num 2)])]
        (.str "x") = some (.obj [("id", .str "x"), ("v", .num 2)]) ∧
    [(JVal.str "x", JVal.obj [("id", JVal.str "x"), ("v", JVal.num 2)])].length
      = 1 := by
  have h := loader_catalog_invariant
    [⟨"a.json", some (.obj [("id", .str "x"), ("v", .num 1)])⟩,
     ⟨"b.json", some (.obj [("id", .str "x"), ("v", .num 2)])⟩]
    [(JVal.str "x", JVal.obj [("id", JVal.str "x"), ("v", JVal.num 2)])]
    rfl
  exact ⟨(h.2.1 (.str "x")).trans (by rfl), h.2.2.trans (by rfl)⟩

end ArcSavings
